import Mathlib

/-!
# hot-config — a verification development of `src/index.js`

This file shallowly embeds the hot-config directory-based configuration
loader (the current revision of `src/index.js`) and settles the frozen
claims about it.

Modelling conventions:
* JavaScript strings are `List Char` (abbreviated `Str`); machine text is
  compared character by character exactly as `String.prototype` methods do.
* Parsed configuration values (the output of the YAML/JSON parsers) are the
  dynamic value type `JVal` (null, booleans, numbers, strings, arrays,
  objects with ordered string keys).
* The external collaborators (the `find` file lister and the file
  read+parse step) are an `Env` record: fidelity to `src/index.js` starts
  at what the collaborators hand back.  File identifiers are taken to be
  the paths relative to the load root, so Node's `path.relative(dir, file)`
  is the identity on them.
* The module-level mutable state (`const store = {}` plus the trees a
  dry-run allocates) is an explicit heap `MState`: a list of cells and the
  index `storeRef` the exported `store` binding points at.  Reference
  identity (`===`) is equality of cell indices.
* Asynchronous callback flow (`async.waterfall`, `async.map`) is collapsed
  to its deterministic sequential contraction: stages run in order and the
  first failing file in discovery order aborts the fan-in.  A place where
  the source throws without ever invoking the completion callback is
  modelled as the result `none`.
-/

namespace HotConfig

/-- JavaScript strings, character by character. -/
abbrev Str := List Char

/-- Dynamic JSON/YAML-like values: the parse results and the store's
contents.  Objects keep their keys in insertion order, as JavaScript
objects do. -/
inductive JVal where
  | null : JVal
  | bool (b : Bool) : JVal
  | num (n : Int) : JVal
  | str (s : Str) : JVal
  | arr (xs : List JVal) : JVal
  | obj (fields : List (Str × JVal)) : JVal

/-- First match wins, as JavaScript property lookup on our ordered-field
representation. -/
def lookupField : List (Str × JVal) → Str → Option JVal
  | [], _ => none
  | (k, v) :: rest, key => if k = key then some v else lookupField rest key

mutual

/-- Nesting depth of a value: the recursion-depth bound fed to the fuelled
merge below. -/
def jdepth : JVal → Nat
  | JVal.arr xs => jdepthList xs + 1
  | JVal.obj fs => jdepthFields fs + 1
  | _ => 1

def jdepthList : List JVal → Nat
  | [] => 0
  | v :: vs => max (jdepth v) (jdepthList vs)

def jdepthFields : List (Str × JVal) → Nat
  | [] => 0
  | (_, v) :: fs => max (jdepth v) (jdepthFields fs)

end

/-- lodash `_.merge` element-wise array merging: overlapping indices merge
recursively, the longer array's tail is kept. -/
def zipMerge (f : JVal → JVal → JVal) : List JVal → List JVal → List JVal
  | xs, [] => xs
  | [], ys => ys
  | x :: xs, y :: ys => f x y :: zipMerge f xs ys

/-- lodash `_.merge` of a plain-object source into an array target: the
array object is kept and each source field whose key is the decimal index
of an existing position merges into the element there.  (lodash
additionally grafts the source's non-index fields as properties on the
array object and extends it with holes for out-of-range indices; an
array carrying named properties or holes has no representation in
`JVal`, so those fields are not carried — every claim theorem below
stays inside `plainCompatF`, which rules an object source over an array
target out.) -/
def mergeArrObj (f : JVal → JVal → JVal) (gs : List (Str × JVal)) :
    Nat → List JVal → List JVal
  | _, [] => []
  | i, x :: xs =>
      (match lookupField gs (Nat.repr i).toList with
       | some w => f x w
       | none => x) :: mergeArrObj f gs (i + 1) xs

/-- Fuelled core of lodash `_.merge(target, source)` on values: objects
merge key by key (target key order first, new source keys appended),
arrays merge index-wise, an object source writes into an array target by
index (see `mergeArrObj`), and any other source value replaces the
target.  The fuel only bounds recursion depth; `mergeJ` always supplies
enough. -/
def mergeF : Nat → JVal → JVal → JVal
  | 0, _, b => b
  | Nat.succ n, JVal.obj fs, JVal.obj gs =>
      JVal.obj
        ((fs.map (fun kv =>
            match lookupField gs kv.1 with
            | some w => (kv.1, mergeF n kv.2 w)
            | none => kv))
          ++ gs.filter (fun kv => (lookupField fs kv.1).isNone))
  | Nat.succ n, JVal.arr xs, JVal.arr ys => JVal.arr (zipMerge (mergeF n) xs ys)
  | Nat.succ n, JVal.arr xs, JVal.obj gs => JVal.arr (mergeArrObj (mergeF n) gs 0 xs)
  | Nat.succ _, _, b => b

/-- lodash deep merge of two values (`_.merge` semantics at a key present
in both target and source).  The fuel `jdepth a + jdepth b + 1` exceeds
the recursion depth, which shrinks by at least one level on each side per
step, so the fuel never runs out. -/
def mergeJ (a b : JVal) : JVal := mergeF (jdepth a + jdepth b + 1) a b

/-- Modelled from the spec: the fuelled deep merge in §4.3's words —
"object-valued keys are merged key-by-key recursively; non-object values
(scalars, sequences) are replaced wholesale, not concatenated; keys
present only in the active profile's section are included".  So an array
or scalar source value always replaces the target value wholesale, where
lodash (`mergeF`) instead merges arrays index-wise.  Field order follows
JavaScript object semantics (target order first, new source keys
appended), as everywhere in this file. -/
def specMergeF : Nat → JVal → JVal → JVal
  | 0, _, b => b
  | Nat.succ n, JVal.obj fs, JVal.obj gs =>
      JVal.obj
        ((fs.map (fun kv =>
            match lookupField gs kv.1 with
            | some w => (kv.1, specMergeF n kv.2 w)
            | none => kv))
          ++ gs.filter (fun kv => (lookupField fs kv.1).isNone))
  | Nat.succ _, _, b => b

/-- Modelled from the spec: §4.3's deep merge of two values. -/
def specMergeJ (a b : JVal) : JVal := specMergeF (jdepth a + jdepth b + 1) a b

/-- Do lodash `_.merge` and the spec's §4.3 merge agree on this
target/source pair?  They visit the same co-present object keys; they
disagree exactly where an array target meets an array source (index-wise
versus wholesale) or an object source (index grafting versus wholesale),
so compatibility requires that no value pair the merge visits is of
either shape.  Fuelled like the merges; at fuel `0` both merges return
the source, so exhausted fuel is compatible. -/
def plainCompatF : Nat → JVal → JVal → Bool
  | 0, _, _ => true
  | Nat.succ n, JVal.obj fs, JVal.obj gs =>
      fs.all (fun kv =>
        match lookupField gs kv.1 with
        | some w => plainCompatF n kv.2 w
        | none => true)
  | Nat.succ _, JVal.arr _, JVal.arr _ => false
  | Nat.succ _, JVal.arr _, JVal.obj _ => false
  | Nat.succ _, _, _ => true

/-- `plainCompatF` at the merges' own fuel. -/
def plainCompat (a b : JVal) : Bool := plainCompatF (jdepth a + jdepth b + 1) a b

/-- Merge compatibility of a value's two optional profile sections: only
two present sections can disagree. -/
def sectionCompat : Option JVal → Option JVal → Bool
  | some a, some b => plainCompat a b
  | _, _ => true

/-- One `_.merge(target, src)` step of `_.merge({}, defaultValue,
specificValue)`: an absent (`undefined`) source contributes nothing; an
object source deep-merges in; a scalar source has no own enumerable keys
and contributes nothing (exact lodash); an array source would graft its
index fields onto the target object — that case, like every non-object
section, lies outside the amended claim's hypotheses (the counterexample
exhibits a non-object section diverging) and is modelled as contributing
nothing. -/
def mergeSource (t : JVal) : Option JVal → JVal
  | none => t
  | some (JVal.obj gs) => mergeJ t (JVal.obj gs)
  | some _ => t

/-- JavaScript property access `value[key]` as the resolver uses it:
an object's field, `undefined` (`none`) everywhere else. -/
def sectionOf (v : JVal) (key : Str) : Option JVal :=
  match v with
  | JVal.obj fs => lookupField fs key
  | _ => none

/-- `config.value[opts.profile]` when `opts.profile` is `undefined`
(unset `NODE_ENV`): JavaScript coerces the key to the string
`"undefined"`. -/
def profileKey : Option Str → Str
  | none => "undefined".toList
  | some p => p

/-- JavaScript truthiness of a parsed value, as tested by
`value && {path: ..., value}` in `load`'s `loadFile`. -/
def truthy : JVal → Bool
  | JVal.null => false
  | JVal.bool b => b
  | JVal.num n => n != 0
  | JVal.str s => !s.isEmpty
  | JVal.arr _ => true
  | JVal.obj _ => true

/-- The profile-resolution step of `load`:
`_.merge({}, config.value[opts.defaultProfile], config.value[opts.profile])`. -/
def resolveProfile (v : JVal) (defaultProfile : Str) (profile : Option Str) : JVal :=
  mergeSource (mergeSource (JVal.obj []) (sectionOf v defaultProfile))
    (sectionOf v (profileKey profile))

/-- Modelled from the spec: the resolved value in the spec's words — the
§4.3 deep merge (`specMergeJ`), into a fresh object, of the value's
default-profile section and its active-profile section, where an absent
section behaves as an empty object.  Stated for comparison with
`resolveProfile`, the code's step, which uses lodash `_.merge`. -/
def specResolveValue (v : JVal) (defaultProfile : Str) (profile : Option Str) : JVal :=
  specMergeJ (specMergeJ (JVal.obj []) ((sectionOf v defaultProfile).getD (JVal.obj [])))
    ((sectionOf v (profileKey profile)).getD (JVal.obj []))

/-- Is an optional profile section an object or absent?  (The shape under
which `_.merge` with an `undefined`/object source is modelled exactly.) -/
def isObjOrAbsent : Option JVal → Bool
  | none => true
  | some (JVal.obj _) => true
  | some _ => false

/-! ## Path strings

`toDotPath` in the source works on JavaScript strings with
`String.prototype.replace` (string pattern: first occurrence only),
`String.prototype.split` on `path.sep`, and Node's `path.extname`.
The path separator is `'/'`. -/

/-- JavaScript `s.split(sep)` for a one-character separator: the list of
(possibly empty) chunks between separators; splitting the empty string
gives `[""]`. -/
def splitSep (sep : Char) : Str → List Str
  | [] => [[]]
  | c :: rest =>
      match splitSep sep rest with
      | [] => [[]]
      | chunk :: chunks =>
          if c = sep then [] :: chunk :: chunks else (c :: chunk) :: chunks

/-- JavaScript `s.replace(pat, '')` for a string pattern: deletes the
first occurrence of `pat`, scanning left to right; with an empty pattern
or no occurrence the string is returned unchanged. -/
def replaceFirst : Str → Str → Str
  | [], _ => []
  | c :: rest, pat =>
      if pat.isPrefixOf (c :: rest) then (c :: rest).drop pat.length
      else c :: replaceFirst rest pat

/-- The suffix of a string starting at its last `'.'`, or `[]` when it has
none (helper for `extname`). -/
def lastDotSuffix : Str → Str
  | [] => []
  | c :: rest =>
      match lastDotSuffix rest with
      | [] => if c = '.' then c :: rest else []
      | found => found

/-- The basename of a path: the part after the last `'/'`. -/
def basenameOf (p : Str) : Str := (splitSep '/' p).getLastD []

/-- Node `path.extname`: the basename's suffix from its last `'.'`; empty
when the basename has no dot or only a leading one (dotfiles). -/
def extname (p : Str) : Str :=
  match basenameOf p with
  | [] => []
  | b =>
      match lastDotSuffix b with
      | [] => []
      | sfx => if sfx.length = b.length then [] else sfx

/-! ## The default path normalizer

lodash `_.camelCase`, restricted to ASCII file-name segments: split into
words at non-alphanumeric characters, lower-case the first word,
capitalize the rest.  The spec treats the segment normalizer as an
external collaborator, so this ASCII model is its contract. -/

/-- A word character for the splitter: ASCII letters and digits. -/
def isWordChar (c : Char) : Bool := c.isAlpha || c.isDigit

/-- Split a segment into maximal alphanumeric words. -/
def wordsOf (s : Str) : List Str :=
  ((splitSep ' ' (s.map (fun c => if isWordChar c then c else ' '))).filter
    (fun w => !w.isEmpty))

/-- lodash `capitalize`: upper-case the first character, lower-case the
rest. -/
def capitalizeWord : Str → Str
  | [] => []
  | c :: rest => c.toUpper :: rest.map Char.toLower

/-- lodash `_.camelCase` on an ASCII segment. -/
def camelCase (s : Str) : Str :=
  match wordsOf s with
  | [] => []
  | w :: ws => w.map Char.toLower ++ (ws.map capitalizeWord).flatten

/-! ## `toDotPath` -/

/-- `toDotPath(filepath, opts)` from the source: defaults the normalizer
to `_.camelCase`, deletes the **first** occurrence of
`path.extname(filepath)` anywhere in the path (JavaScript
`String.prototype.replace` with a string pattern), splits on the path
separator, drops empty segments, normalizes each segment and joins with
dots. -/
def toDotPath (filepath : Str) (pathNormalizer : Option (Str → Str)) : Str :=
  List.intercalate ['.']
    ((((splitSep '/' (replaceFirst filepath (extname filepath))).filter
        (fun n => !n.isEmpty)).map (pathNormalizer.getD camelCase)))

/-! ## The load pipeline

`load` runs an `async.waterfall`: discover files, read+parse each
(`async.map` with the built-in `parseYAML`-style parser), resolve the
profile of each parsed value, then commit.  The collaborators' outcomes
are an environment record. -/

/-- The outcome of reading and decoding one discovered file, as the
parser collaborator reports it to `loadFile`'s callback. -/
inductive FileResult where
  | readErr (e : Str) : FileResult
  | parseErr (e : Str) : FileResult
  | ok (v : JVal) : FileResult

/-- The errors a load can deliver to its completion callback: a raw I/O
error passed through from `fs.readFile`, or a `ParserError` wrapping a
parse failure together with the offending file's path (the class in the
source stores both in its message). -/
inductive LoadErr where
  | ioError (e : Str) : LoadErr
  | parserError (underlying : Str) (file : Str) : LoadErr
deriving DecidableEq

/-- The message the `ParserError` constructor builds:
`` `${error.toString()} in "${file}"` ``. -/
def parserErrorMessage (underlying file : Str) : Str :=
  underlying ++ " in \"".toList ++ file ++ "\"".toList

/-- Is an error the dedicated parser-error wrapper? -/
def isParserError : LoadErr → Bool
  | LoadErr.parserError _ _ => true
  | LoadErr.ioError _ => false

/-- The external collaborators of one load call.
* `discovery` is what the `find` collaborator does for the resolved
  directory and file pattern: a file list, or a traversal failure.  The
  source's `listDir` registers no `.error` handler on `find`, so a
  traversal failure is thrown by the library and never reaches `load`'s
  callback; `load` maps it to the outcome `none` below.
* `content` is the per-file read+parse outcome (the file pattern, parser
  choice and encoding options are folded into it).  Files are identified
  by their dir-relative paths. -/
structure Env where
  discovery : Except Str (List Str)
  content : Str → FileResult

/-- One per-file record `{path, value}` built by `load`'s `loadFile`. -/
structure ConfigEntry where
  path : Str
  value : JVal

/-- The caller-visible options of `load` after `_.defaults`, with the
collaborator-selection options (`filePattern`, `fileParser`,
`fileEncoding`) folded into `Env`.  `profile` is `opts.profile` defaulted
from `process.env.NODE_ENV`, which may be unset (`none`). -/
structure LoadOpts where
  pathNormalizer : Option (Str → Str)
  defaultProfile : Str
  profile : Option Str
  dryRun : Bool

/-- The resolved defaults of `load`'s options: no normalizer supplied,
default profile `"default"`, `NODE_ENV` unset, real run. -/
def defaultOpts : LoadOpts :=
  { pathNormalizer := none
    defaultProfile := "default".toList
    profile := none
    dryRun := false }

/-- `load`'s `loadFile`: run the parser collaborator on one file; a parse
failure arrives already wrapped as a `ParserError` naming the file, a
read failure arrives raw.  On success the source computes
`next(err, value && {path: toDotPath(path.relative(dir, file, {pathNormalizer:
opts.pathNormalizer})), value})`: the options object is passed as a third
argument to `path.relative`, which ignores extra arguments, so
`toDotPath` runs with **no** options and its built-in `camelCase`
default; and a falsy parsed value short-circuits `&&`, making the entry
the falsy value itself (`none` here) instead of a record. -/
def loadFile (env : Env) (file : Str) : Except LoadErr (Option ConfigEntry) :=
  match env.content file with
  | FileResult.readErr e => Except.error (LoadErr.ioError e)
  | FileResult.parseErr e => Except.error (LoadErr.parserError e file)
  | FileResult.ok v =>
      Except.ok (if truthy v then some { path := toDotPath file none, value := v } else none)

/-- `async.map(files, loadFile, next)`, contracted to discovery order:
the first failing file aborts the whole fan-in with its error. -/
def loadFiles (env : Env) : List Str → Except LoadErr (List (Option ConfigEntry))
  | [] => Except.ok []
  | f :: fs =>
      match loadFile env f with
      | Except.error e => Except.error e
      | Except.ok c =>
          match loadFiles env fs with
          | Except.error e => Except.error e
          | Except.ok cs => Except.ok (c :: cs)

/-- The profile-resolution stage (`_.map(configs, ...)`): each entry's
value becomes `_.merge({}, value[defaultProfile], value[profile])`.  A
falsy entry (`none`) makes the source dereference `config.value` on
`null`/`undefined`: a `TypeError` is thrown inside the waterfall task,
`neo-async` installs no catch, and the completion callback is never
invoked — modelled as `none`. -/
def resolveEntries (defaultProfile : Str) (profile : Option Str) :
    List (Option ConfigEntry) → Option (List ConfigEntry)
  | [] => some []
  | none :: _ => none
  | some c :: rest =>
      match resolveEntries defaultProfile profile rest with
      | none => none
      | some cs =>
          some ({ c with value := resolveProfile c.value defaultProfile profile } :: cs)

/-! ## The store and the commit stage -/

/-- Replace an object field in place (first match keeps its position), or
append a new one — JavaScript assignment on our ordered fields. -/
def putField : List (Str × JVal) → Str → JVal → List (Str × JVal)
  | [], key, v => [(key, v)]
  | (k, w) :: rest, key, v =>
      if k = key then (key, v) :: rest else (k, w) :: putField rest key v

/-- lodash `_.set(target, path, value)` after the dotted path is split
into keys: walk the keys, descending into existing object children and
creating fresh empty objects elsewhere, then assign at the last key.
A non-object target is returned untouched, as lodash does.  (lodash
additionally descends into arrays and creates arrays for integer-like
keys; no discovered entry path of this loader reaches either case.) -/
def setPath : JVal → List Str → JVal → JVal
  | t, [], _ => t
  | JVal.obj fs, [k], v => JVal.obj (putField fs k v)
  | JVal.obj fs, k :: k' :: ks, v =>
      JVal.obj (putField fs k
        (setPath
          (match lookupField fs k with
           | some (JVal.obj cfs) => JVal.obj cfs
           | _ => JVal.obj [])
          (k' :: ks) v))
  | t, _ :: _, _ => t

/-- Apply one resolved entry: `_.set(target, config.path, config.value)`
(lodash splits the dotted path string on dots). -/
def applyEntry (t : JVal) (c : ConfigEntry) : JVal :=
  setPath t (splitSep '.' c.path) c.value

/-- Apply a batch of resolved entries in discovery order. -/
def applyBatch (t : JVal) (cs : List ConfigEntry) : JVal :=
  cs.foldl applyEntry t

/-- The module state: a heap of live trees and the index the exported
`store` binding refers to.  `const store = {}` at module load allocates
cell `0`; dry-run result trees are freshly allocated cells. -/
structure MState where
  storeRef : Nat
  heap : List JVal

/-- The module state right after `const store = {}`. -/
def initState : MState := { storeRef := 0, heap := [JVal.obj []] }

/-- Dereference a heap cell. -/
def heapAt (s : MState) (l : Nat) : Option JVal := s.heap[l]?

/-- Rewrite one heap cell in place. -/
def modifyAt : List JVal → Nat → (JVal → JVal) → List JVal
  | [], _, _ => []
  | v :: rest, 0, f => f v :: rest
  | v :: rest, Nat.succ i, f => v :: modifyAt rest i f

/-- `clear()` on a tree: delete every top-level key of the store object
(a non-object has no own enumerable keys and is left alone). -/
def clearVal : JVal → JVal
  | JVal.obj _ => JVal.obj []
  | v => v

/-- The exported `clear()`: empties the store object in place, never
rebinding `store`. -/
def clearS (s : MState) : MState :=
  { s with heap := modifyAt s.heap s.storeRef clearVal }

/-- The commit stage of `load` (its last waterfall task): on a dry run,
build the batch into a fresh `testStore = {}` and call back with it; on a
real run, `clear()` then `_.set` each entry into the store object and
call back with the store itself.  The returned reference is the heap cell
handed to the callback. -/
def commit (dryRun : Bool) (rs : List ConfigEntry) (s : MState) :
    MState × Option (Except LoadErr Nat) :=
  if dryRun then
    ({ s with heap := s.heap ++ [applyBatch (JVal.obj []) rs] },
      some (Except.ok s.heap.length))
  else
    ({ clearS s with
        heap := modifyAt (clearS s).heap s.storeRef (fun cur => applyBatch cur rs) },
      some (Except.ok s.storeRef))

/-- `load(dir, opts, done)`: the whole waterfall over the module state.
The second component is what happens to the completion callback: `none`
when it is never invoked (the `find` collaborator threw, or a falsy
parsed value made the merge stage throw), `some (error e)` when it
receives an error and no result, and `some (ok r)` when it receives
`(null, tree)` with `r` the tree's heap cell. -/
def load (opts : LoadOpts) (env : Env) (s : MState) :
    MState × Option (Except LoadErr Nat) :=
  match env.discovery with
  | Except.error _ => (s, none)
  | Except.ok files =>
      match loadFiles env files with
      | Except.error e => (s, some (Except.error e))
      | Except.ok entries =>
          match resolveEntries opts.defaultProfile opts.profile entries with
          | none => (s, none)
          | some rs => commit opts.dryRun rs s

/-- The state-free part of a load: what the stages before commit produce.
`none` mirrors an outcome where the callback is never invoked. -/
def pipeline (opts : LoadOpts) (env : Env) :
    Option (Except LoadErr (List ConfigEntry)) :=
  match env.discovery with
  | Except.error _ => none
  | Except.ok files =>
      match loadFiles env files with
      | Except.error e => some (Except.error e)
      | Except.ok entries =>
          match resolveEntries opts.defaultProfile opts.profile entries with
          | none => none
          | some rs => some (Except.ok rs)

/-! ## Concrete sample data (used by witnesses and counterexamples) -/

/-- `{default: {a: 1, b: 2}, production: {b: 3}}` — the spec's profile
example. -/
def sampleValue : JVal :=
  JVal.obj
    [("default".toList, JVal.obj [("a".toList, JVal.num 1), ("b".toList, JVal.num 2)]),
     ("production".toList, JVal.obj [("b".toList, JVal.num 3)])]

/-- `{default: {k: [1,2,3]}, production: {k: [9]}}` — both sections hold
an array at the same key, where lodash merges index-wise and the spec
replaces wholesale. -/
def arrConflictValue : JVal :=
  JVal.obj
    [("default".toList,
        JVal.obj [("k".toList, JVal.arr [JVal.num 1, JVal.num 2, JVal.num 3])]),
     ("production".toList, JVal.obj [("k".toList, JVal.arr [JVal.num 9])])]

/-- `{default: {a: 1}, production: 5}` — a scalar active-profile section,
which lodash ignores as a merge source while the spec replaces the
target wholesale. -/
def scalarSectionValue : JVal :=
  JVal.obj
    [("default".toList, JVal.obj [("a".toList, JVal.num 1)]),
     ("production".toList, JVal.num 5)]

/-- A directory with the single file `db/mongo.yaml` holding
`sampleValue`. -/
def sampleEnv : Env :=
  { discovery := Except.ok ["db/mongo.yaml".toList]
    content := fun _ => FileResult.ok sampleValue }

/-- `load` options selecting the `production` profile. -/
def prodOpts : LoadOpts := { defaultOpts with profile := some "production".toList }

/-- `prodOpts` with `dryRun: true`. -/
def prodDryOpts : LoadOpts := { prodOpts with dryRun := true }

/-- A directory where `a.yaml` fails to read (`EACCES`) and `b.yaml`
fails to parse. -/
def mixedFailEnv : Env :=
  { discovery := Except.ok ["a.yaml".toList, "b.yaml".toList]
    content := fun f =>
      if f = "a.yaml".toList then FileResult.readErr "EACCES".toList
      else FileResult.parseErr "unexpected token".toList }

/-- A directory where `a.yaml` parses fine and `b.yaml` fails to parse. -/
def parseFailEnv : Env :=
  { discovery := Except.ok ["a.yaml".toList, "b.yaml".toList]
    content := fun f =>
      if f = "b.yaml".toList then FileResult.parseErr "unexpected token".toList
      else FileResult.ok sampleValue }

/-- A directory whose traversal fails (`find` on a missing directory). -/
def badDirEnv : Env :=
  { discovery := Except.error "ENOENT".toList
    content := fun _ => FileResult.ok sampleValue }

/-- A directory with one file that parses to YAML `null` (e.g. a file
holding only `~` or only comments). -/
def nullFileEnv : Env :=
  { discovery := Except.ok ["nul.yaml".toList]
    content := fun _ => FileResult.ok JVal.null }

/-- An upper-casing segment normalizer, as a caller could supply via
`opts.pathNormalizer`. -/
def upperNorm : Str → Str := fun s => s.map Char.toUpper

/-- `load` options supplying `upperNorm` as the `pathNormalizer`. -/
def upNormOpts : LoadOpts := { defaultOpts with pathNormalizer := some upperNorm }

/-- The resolved entries of loading `sampleEnv` with no active profile:
`db/mongo.yaml` at dotted path `db.mongo` with just the default section. -/
def sampleEntries : List ConfigEntry :=
  [{ path := "db.mongo".toList,
     value := JVal.obj [("a".toList, JVal.num 1), ("b".toList, JVal.num 2)] }]

/-- The resolved entries of loading `sampleEnv` under profile
`production`: the active section's `b` wins. -/
def prodEntries : List ConfigEntry :=
  [{ path := "db.mongo".toList,
     value := JVal.obj [("a".toList, JVal.num 1), ("b".toList, JVal.num 3)] }]

/-- A directory with zero matching files. -/
def emptyDirEnv : Env :=
  { discovery := Except.ok []
    content := fun _ => FileResult.ok sampleValue }

/-- A module state whose store already holds previously loaded content. -/
def loadedState : MState :=
  { storeRef := 0, heap := [JVal.obj [("old".toList, JVal.num 7)]] }

/-! ## Supporting lemmas -/

theorem load_of_pipeline_none {opts : LoadOpts} {env : Env} (s : MState)
    (h : pipeline opts env = none) : load opts env s = (s, none) := by
  unfold pipeline at h
  unfold load
  cases hd : env.discovery with
  | error e => rfl
  | ok files =>
      simp only [hd] at h ⊢
      cases hl : loadFiles env files with
      | error e => simp [hl] at h
      | ok entries =>
          simp only [hl] at h ⊢
          cases hr : resolveEntries opts.defaultProfile opts.profile entries with
          | none => simp [hr]
          | some rs => simp [hr] at h

theorem load_of_pipeline_err {opts : LoadOpts} {env : Env} {e : LoadErr} (s : MState)
    (h : pipeline opts env = some (Except.error e)) :
    load opts env s = (s, some (Except.error e)) := by
  unfold pipeline at h
  unfold load
  cases hd : env.discovery with
  | error e' => simp [hd] at h
  | ok files =>
      simp only [hd] at h ⊢
      cases hl : loadFiles env files with
      | error e' => simp only [hl] at h ⊢; simp at h; rw [h]
      | ok entries =>
          simp only [hl] at h ⊢
          cases hr : resolveEntries opts.defaultProfile opts.profile entries with
          | none => simp [hr] at h
          | some rs => simp [hr] at h

theorem load_of_pipeline_ok {opts : LoadOpts} {env : Env} {rs : List ConfigEntry}
    (s : MState) (h : pipeline opts env = some (Except.ok rs)) :
    load opts env s = commit opts.dryRun rs s := by
  unfold pipeline at h
  unfold load
  cases hd : env.discovery with
  | error e => simp [hd] at h
  | ok files =>
      simp only [hd] at h ⊢
      cases hl : loadFiles env files with
      | error e => simp [hl] at h
      | ok entries =>
          simp only [hl] at h ⊢
          cases hr : resolveEntries opts.defaultProfile opts.profile entries with
          | none => simp [hr] at h
          | some rs' => simp only [hr] at h ⊢; simp at h; rw [h]

theorem modifyAt_length (l : List JVal) (i : Nat) (f : JVal → JVal) :
    (modifyAt l i f).length = l.length := by
  induction l generalizing i with
  | nil => rfl
  | cons v rest ih =>
      cases i with
      | zero => rfl
      | succ j => simpa [modifyAt] using ih j

theorem getElem?_modifyAt_self (l : List JVal) (i : Nat) (f : JVal → JVal)
    (h : i < l.length) : (modifyAt l i f)[i]? = l[i]?.map f := by
  induction l generalizing i with
  | nil => simp at h
  | cons v rest ih =>
      cases i with
      | zero => simp [modifyAt]
      | succ j => simpa [modifyAt] using ih j (by simpa using h)

/-- The store cell always holds an object: `_.set` keeps an object an
object. -/
theorem setPath_obj (ks : List Str) (v : JVal) (fs : List (Str × JVal)) :
    ∃ gs, setPath (JVal.obj fs) ks v = JVal.obj gs := by
  cases ks with
  | nil => exact ⟨fs, rfl⟩
  | cons k ks' =>
      cases ks' with
      | nil => exact ⟨putField fs k v, rfl⟩
      | cons k' ks'' => exact ⟨_, rfl⟩

theorem applyBatch_obj (cs : List ConfigEntry) (fs : List (Str × JVal)) :
    ∃ gs, applyBatch (JVal.obj fs) cs = JVal.obj gs := by
  induction cs generalizing fs with
  | nil => exact ⟨fs, rfl⟩
  | cons c cs' ih =>
      obtain ⟨gs, hg⟩ := setPath_obj (splitSep '.' c.path) c.value fs
      obtain ⟨hs, hh⟩ := ih gs
      exact ⟨hs, by simpa [applyBatch, applyEntry, hg] using hh⟩

theorem filter_lookupField_nil (gs : List (Str × JVal)) :
    gs.filter (fun kv => (lookupField [] kv.1).isNone) = gs := by
  induction gs with
  | nil => rfl
  | cons kv rest ih => simp [List.filter, lookupField, ih]

theorem map_lookupField_nil (n : Nat) (fs : List (Str × JVal)) :
    (fs.map (fun kv =>
      match lookupField [] kv.1 with
      | some w => (kv.1, mergeF n kv.2 w)
      | none => kv)) = fs := by
  induction fs with
  | nil => rfl
  | cons kv rest ih => simp [lookupField, ih]

/-- Merging any object source into the empty object yields the source. -/
theorem mergeF_nilL (n : Nat) (gs : List (Str × JVal)) :
    mergeF (n + 1) (JVal.obj []) (JVal.obj gs) = JVal.obj gs := by
  simp [mergeF, filter_lookupField_nil]

/-- Merging the empty object source into an object leaves the target. -/
theorem mergeF_nilR (n : Nat) (fs : List (Str × JVal)) :
    mergeF (n + 1) (JVal.obj fs) (JVal.obj []) = JVal.obj fs := by
  simp [mergeF, map_lookupField_nil]

theorem mergeJ_nilL (gs : List (Str × JVal)) :
    mergeJ (JVal.obj []) (JVal.obj gs) = JVal.obj gs := mergeF_nilL _ gs

theorem mergeJ_nilR (fs : List (Str × JVal)) :
    mergeJ (JVal.obj fs) (JVal.obj []) = JVal.obj fs := mergeF_nilR _ fs

theorem map_spec_lookupField_nil (n : Nat) (fs : List (Str × JVal)) :
    (fs.map (fun kv =>
      match lookupField [] kv.1 with
      | some w => (kv.1, specMergeF n kv.2 w)
      | none => kv)) = fs := by
  induction fs with
  | nil => rfl
  | cons kv rest ih => simp [lookupField, ih]

theorem specMergeF_nilL (n : Nat) (gs : List (Str × JVal)) :
    specMergeF (n + 1) (JVal.obj []) (JVal.obj gs) = JVal.obj gs := by
  simp [specMergeF, filter_lookupField_nil]

theorem specMergeF_nilR (n : Nat) (fs : List (Str × JVal)) :
    specMergeF (n + 1) (JVal.obj fs) (JVal.obj []) = JVal.obj fs := by
  simp [specMergeF, map_spec_lookupField_nil]

theorem specMergeJ_nilL (gs : List (Str × JVal)) :
    specMergeJ (JVal.obj []) (JVal.obj gs) = JVal.obj gs := specMergeF_nilL _ gs

theorem specMergeJ_nilR (fs : List (Str × JVal)) :
    specMergeJ (JVal.obj fs) (JVal.obj []) = JVal.obj fs := specMergeF_nilR _ fs

/-- On compatible fields, the lodash merge and the spec's merge traverse
the target's fields identically. -/
theorem mapMerge_eq_mapSpec (n : Nat) (gs : List (Str × JVal))
    (ih : ∀ a b, plainCompatF n a b = true → mergeF n a b = specMergeF n a b)
    (fs : List (Str × JVal))
    (h : ∀ kv ∈ fs,
      (match lookupField gs kv.1 with
       | some w => plainCompatF n kv.2 w
       | none => true) = true) :
    (fs.map (fun kv =>
      match lookupField gs kv.1 with
      | some w => (kv.1, mergeF n kv.2 w)
      | none => kv))
      = fs.map (fun kv =>
        match lookupField gs kv.1 with
        | some w => (kv.1, specMergeF n kv.2 w)
        | none => kv) := by
  induction fs with
  | nil => rfl
  | cons kv fs' ihf =>
      simp only [List.map_cons]
      have hkv := h kv (List.mem_cons_self kv fs')
      have htail := ihf (fun kv' hk => h kv' (List.mem_cons_of_mem kv hk))
      cases hw : lookupField gs kv.1 with
      | none => rw [htail]
      | some w =>
          rw [hw] at hkv
          simp only at hkv
          rw [htail]
          simp [ih kv.2 w hkv]

/-- Where `plainCompatF` holds, lodash `_.merge` computes exactly the
spec's §4.3 deep merge. -/
theorem mergeF_eq_specMergeF :
    ∀ (n : Nat) (a b : JVal), plainCompatF n a b = true →
      mergeF n a b = specMergeF n a b := by
  intro n
  induction n with
  | zero => intro a b _; rfl
  | succ n ih =>
      intro a b h
      cases a with
      | obj fs =>
          cases b with
          | obj gs =>
              have hall : ∀ kv ∈ fs,
                  (match lookupField gs kv.1 with
                   | some w => plainCompatF n kv.2 w
                   | none => true) = true := by
                simp only [plainCompatF] at h
                exact fun kv hkv => List.all_eq_true.mp h kv hkv
              simp only [mergeF, specMergeF]
              rw [mapMerge_eq_mapSpec n gs ih fs hall]
          | null => rfl
          | bool b' => rfl
          | num m => rfl
          | str t => rfl
          | arr ys => rfl
      | arr xs =>
          cases b with
          | arr ys => simp [plainCompatF] at h
          | obj gs => simp [plainCompatF] at h
          | null => rfl
          | bool b' => rfl
          | num m => rfl
          | str t => rfl
      | null => cases b <;> rfl
      | bool b' => cases b <;> rfl
      | num m => cases b <;> rfl
      | str t => cases b <;> rfl

/-- Where `plainCompat` holds, the lodash deep merge and the spec's deep
merge agree. -/
theorem mergeJ_eq_specMergeJ (a b : JVal) (h : plainCompat a b = true) :
    mergeJ a b = specMergeJ a b :=
  mergeF_eq_specMergeF _ a b h

theorem pipeline_eq (opts : LoadOpts) (env : Env) (files : List Str)
    (hd : env.discovery = Except.ok files) :
    pipeline opts env
      = match loadFiles env files with
        | Except.error e => some (Except.error e)
        | Except.ok entries =>
            match resolveEntries opts.defaultProfile opts.profile entries with
            | none => none
            | some rs => some (Except.ok rs) := by
  unfold pipeline
  rw [hd]

/-- Files that read and parse fine pass the fan-in through to the rest of
the list; a later failure still aborts with its own error. -/
theorem loadFiles_append_error (env : Env) (pre l : List Str) (e : LoadErr)
    (hpre : ∀ g ∈ pre, ∃ v, env.content g = FileResult.ok v)
    (hl : loadFiles env l = Except.error e) :
    loadFiles env (pre ++ l) = Except.error e := by
  induction pre with
  | nil => simpa using hl
  | cons g pre' ih =>
      obtain ⟨v, hv⟩ := hpre g (by simp)
      have hrest := ih (fun g' hg' => hpre g' (by simp [hg']))
      simp only [List.cons_append, loadFiles, loadFile, hv, List.append_eq, hrest]

/-! ## The claims -/

/-- **C2.**  Across the whole process lifetime the exported store is one
single object: `clear()` and every load — successful, failed, dry-run or
not — leave the exported binding pointing at the same heap cell
(`storeRef` is never rebound), and a successful non-dry-run load hands
that very cell to the callback and rewrites its contents in place, so a
reference captured before the reload observes the newly loaded values. -/
theorem c2_store_identity (opts : LoadOpts) (env : Env) (s : MState) :
    (load opts env s).1.storeRef = s.storeRef
    ∧ (clearS s).storeRef = s.storeRef
    ∧ (∀ rs old, pipeline opts env = some (Except.ok rs) → opts.dryRun = false →
        heapAt s s.storeRef = some old → s.storeRef < s.heap.length →
        (load opts env s).2 = some (Except.ok s.storeRef)
        ∧ heapAt (load opts env s).1 s.storeRef
            = some (applyBatch (clearVal old) rs)) := by
  refine ⟨?_, rfl, ?_⟩
  · cases hp : pipeline opts env with
    | none => rw [load_of_pipeline_none s hp]
    | some r =>
        cases r with
        | error e => rw [load_of_pipeline_err s hp]
        | ok rs =>
            rw [load_of_pipeline_ok s hp]
            unfold commit
            cases opts.dryRun <;> rfl
  · intro rs old hp hdry hold href
    rw [load_of_pipeline_ok s hp, hdry]
    unfold commit
    simp only [Bool.false_eq_true, if_false]
    refine ⟨trivial, ?_⟩
    have h1 : s.storeRef < (modifyAt s.heap s.storeRef clearVal).length := by
      rw [modifyAt_length]; exact href
    simp only [heapAt, clearS] at hold ⊢
    rw [getElem?_modifyAt_self _ _ _ h1, getElem?_modifyAt_self _ _ _ href, hold]
    rfl

/-- **C3.**  A dry-run load never mutates the Store: the store binding and
every live heap cell (in particular the store cell) are unchanged whatever
the outcome, and on success the callback receives a freshly allocated
cell — distinct from the store cell — holding the batch applied to an
empty tree. -/
theorem c3_dry_run_isolation (opts : LoadOpts) (env : Env) (s : MState)
    (rs : List ConfigEntry)
    (hdry : opts.dryRun = true) (href : s.storeRef < s.heap.length) :
    (load opts env s).1.storeRef = s.storeRef
    ∧ heapAt (load opts env s).1 s.storeRef = heapAt s s.storeRef
    ∧ (∀ l, l < s.heap.length → heapAt (load opts env s).1 l = heapAt s l)
    ∧ (pipeline opts env = some (Except.ok rs) →
        (load opts env s).2 = some (Except.ok s.heap.length)
        ∧ s.heap.length ≠ s.storeRef
        ∧ heapAt (load opts env s).1 s.heap.length
            = some (applyBatch (JVal.obj []) rs)) := by
  cases hp : pipeline opts env with
  | none =>
      rw [load_of_pipeline_none s hp]
      exact ⟨rfl, rfl, fun l _ => rfl, fun h => by simp [hp] at h⟩
  | some r =>
      cases r with
      | error e =>
          rw [load_of_pipeline_err s hp]
          exact ⟨rfl, rfl, fun l _ => rfl, fun h => by simp [hp] at h⟩
      | ok rs' =>
          rw [load_of_pipeline_ok s hp, hdry]
          unfold commit
          simp only [if_true]
          refine ⟨trivial, ?_, ?_, ?_⟩
          · simp only [heapAt]
            exact List.getElem?_append_left href
          · intro l hl
            simp only [heapAt]
            exact List.getElem?_append_left hl
          · intro h
            have hrs : rs' = rs := by simpa [hp] using h
            subst hrs
            refine ⟨trivial, Nat.ne_of_gt href, ?_⟩
            simp only [heapAt]
            exact List.getElem?_concat_length _ _

/-- **C4.**  For every list of resolved config entries, the tree a
dry-run load returns is deep-equal to the contents the Store holds after
a non-dry-run load of the same entries: both apply the identical batch of
nested path assignments, one into a fresh empty tree, the other into the
cleared (hence empty) store object. -/
theorem c4_dry_run_refinement (opts1 opts2 : LoadOpts) (env : Env) (s : MState)
    (rs : List ConfigEntry) (ofs : List (Str × JVal))
    (h1 : opts1.dryRun = true) (h2 : opts2.dryRun = false)
    (hp1 : pipeline opts1 env = some (Except.ok rs))
    (hp2 : pipeline opts2 env = some (Except.ok rs))
    (hold : heapAt s s.storeRef = some (JVal.obj ofs))
    (href : s.storeRef < s.heap.length) :
    heapAt (load opts1 env s).1 s.heap.length = some (applyBatch (JVal.obj []) rs)
    ∧ heapAt (load opts2 env s).1 s.storeRef = some (applyBatch (JVal.obj []) rs)
    ∧ heapAt (load opts1 env s).1 s.heap.length
        = heapAt (load opts2 env s).1 s.storeRef := by
  rw [load_of_pipeline_ok s hp1, load_of_pipeline_ok s hp2, h1, h2]
  unfold commit
  simp only [if_true, Bool.false_eq_true, if_false]
  have hfresh :
      heapAt { s with heap := s.heap ++ [applyBatch (JVal.obj []) rs] } s.heap.length
        = some (applyBatch (JVal.obj []) rs) := by
    simp only [heapAt]
    exact List.getElem?_concat_length _ _
  have hreal :
      heapAt
        { clearS s with
            heap := modifyAt (clearS s).heap s.storeRef (fun cur => applyBatch cur rs) }
        s.storeRef = some (applyBatch (JVal.obj []) rs) := by
    have hlen : s.storeRef < (modifyAt s.heap s.storeRef clearVal).length := by
      rw [modifyAt_length]; exact href
    simp only [heapAt, clearS] at hold ⊢
    rw [getElem?_modifyAt_self _ _ _ hlen, getElem?_modifyAt_self _ _ _ href, hold]
    rfl
  exact ⟨hfresh, hreal, hfresh.trans hreal.symm⟩

/-- **C8.**  A load discovering zero matching files succeeds: a
non-dry-run call clears any previously loaded store contents, leaves the
store empty and passes the store cell to the callback; a dry-run call
passes a fresh empty tree and leaves the store untouched. -/
theorem c8_empty_directory (opts1 opts2 : LoadOpts) (env : Env) (s : MState)
    (ofs : List (Str × JVal))
    (hd : env.discovery = Except.ok [])
    (h1 : opts1.dryRun = false) (h2 : opts2.dryRun = true)
    (hold : heapAt s s.storeRef = some (JVal.obj ofs))
    (href : s.storeRef < s.heap.length) :
    (load opts1 env s).2 = some (Except.ok s.storeRef)
    ∧ heapAt (load opts1 env s).1 s.storeRef = some (JVal.obj [])
    ∧ (load opts2 env s).2 = some (Except.ok s.heap.length)
    ∧ heapAt (load opts2 env s).1 s.heap.length = some (JVal.obj [])
    ∧ heapAt (load opts2 env s).1 s.storeRef = heapAt s s.storeRef := by
  have hp1 : pipeline opts1 env = some (Except.ok []) := by
    unfold pipeline; rw [hd]; rfl
  have hp2 : pipeline opts2 env = some (Except.ok []) := by
    unfold pipeline; rw [hd]; rfl
  rw [load_of_pipeline_ok s hp1, load_of_pipeline_ok s hp2, h1, h2]
  unfold commit
  simp only [if_true, Bool.false_eq_true, if_false]
  have hlen : s.storeRef < (modifyAt s.heap s.storeRef clearVal).length := by
    rw [modifyAt_length]; exact href
  refine ⟨trivial, ?_, trivial, ?_, ?_⟩
  · simp only [heapAt, clearS] at hold ⊢
    rw [getElem?_modifyAt_self _ _ _ hlen, getElem?_modifyAt_self _ _ _ href, hold]
    rfl
  · simp only [heapAt]
    exact List.getElem?_concat_length _ _
  · simp only [heapAt]
    exact List.getElem?_append_left href

/-- **C9.**  Loading the same unchanged directory twice with the same
options is idempotent on the store's contents: after the second
successful non-dry-run load the store cell holds the same tree as after
the first. -/
theorem c9_idempotent (opts : LoadOpts) (env : Env) (s : MState)
    (rs : List ConfigEntry) (ofs : List (Str × JVal))
    (hdry : opts.dryRun = false)
    (hp : pipeline opts env = some (Except.ok rs))
    (hold : heapAt s s.storeRef = some (JVal.obj ofs))
    (href : s.storeRef < s.heap.length) :
    heapAt (load opts env (load opts env s).1).1 s.storeRef
      = heapAt (load opts env s).1 s.storeRef := by
  obtain ⟨gs, hgs⟩ := applyBatch_obj rs []
  rw [load_of_pipeline_ok s hp, hdry]
  set s1 := (commit false rs s).1 with hs1
  rw [load_of_pipeline_ok s1 hp, hdry]
  have hlen : s.storeRef < (modifyAt s.heap s.storeRef clearVal).length := by
    rw [modifyAt_length]; exact href
  have href1 : s.storeRef < s1.heap.length := by
    simp only [hs1, commit, Bool.false_eq_true, if_false, clearS]
    rw [modifyAt_length, modifyAt_length]
    exact href
  have hstore1 : s1.storeRef = s.storeRef := by
    simp only [hs1, commit, Bool.false_eq_true, if_false, clearS]
  have h1 : heapAt s1 s.storeRef = some (JVal.obj gs) := by
    simp only [hs1, commit, Bool.false_eq_true, if_false, clearS, heapAt] at hold ⊢
    rw [getElem?_modifyAt_self _ _ _ hlen, getElem?_modifyAt_self _ _ _ href, hold]
    exact congrArg some hgs
  have hlen1 : s.storeRef < (modifyAt s1.heap s1.storeRef clearVal).length := by
    rw [modifyAt_length]; exact href1
  simp only [commit, Bool.false_eq_true, if_false, clearS, heapAt] at h1 ⊢
  rw [hstore1] at hlen1 ⊢
  rw [getElem?_modifyAt_self _ _ _ hlen1, getElem?_modifyAt_self _ _ _ href1, h1]
  exact congrArg some hgs

/-- **C1 (counterexample).**  A non-dry-run load in which `b.yaml` fails
to parse but the earlier-discovered `a.yaml` fails to *read* delivers the
raw I/O error, not a `ParserError`: the claim's "the completion callback
receives a ParserError" does not hold for every load with a parse
failure. -/
theorem c1_counterexample :
    (∃ u, mixedFailEnv.content "b.yaml".toList = FileResult.parseErr u)
    ∧ (load defaultOpts mixedFailEnv initState).2
        = some (Except.error (LoadErr.ioError "EACCES".toList))
    ∧ (∃ e, (load defaultOpts mixedFailEnv initState).2 = some (Except.error e)
        ∧ isParserError e = false) :=
  ⟨⟨"unexpected token".toList, rfl⟩, rfl,
    ⟨LoadErr.ioError "EACCES".toList, rfl, rfl⟩⟩

/-- **C1 (amended).**  For every non-dry-run load call in which some
discovered file fails to parse and every earlier-discovered file reads
and parses fine, the load aborts: the completion callback receives the
`ParserError` wrapping the underlying parse failure and carrying the
offending file's path, no entry is applied, and the module state — in
particular the Store cell — is exactly what it was before the call. -/
theorem c1_parse_failure_aborts (opts : LoadOpts) (env : Env) (s : MState)
    (pre post : List Str) (f u : Str)
    (_hdry : opts.dryRun = false)
    (hd : env.discovery = Except.ok (pre ++ f :: post))
    (hpre : ∀ g ∈ pre, ∃ v, env.content g = FileResult.ok v)
    (hf : env.content f = FileResult.parseErr u) :
    (load opts env s).2 = some (Except.error (LoadErr.parserError u f))
    ∧ (load opts env s).1 = s := by
  have hfl : loadFiles env (f :: post) = Except.error (LoadErr.parserError u f) := by
    simp [loadFiles, loadFile, hf]
  have h2 : loadFiles env (pre ++ f :: post) = Except.error (LoadErr.parserError u f) :=
    loadFiles_append_error env pre _ _ hpre hfl
  have hp : pipeline opts env = some (Except.error (LoadErr.parserError u f)) := by
    rw [pipeline_eq opts env _ hd, h2]
  rw [load_of_pipeline_err s hp]
  exact ⟨rfl, rfl⟩

/-- **C6 (counterexample).**  When the file-discovery collaborator fails
(`find` on a missing directory), `listDir` — which registers no error
handler and whose callback is only ever invoked with a file list — never
reaches the completion callback: the failure is *not* delivered through
the callback's error parameter, against the claim that every failure is. -/
theorem c6_counterexample :
    badDirEnv.discovery = Except.error "ENOENT".toList
    ∧ (load defaultOpts badDirEnv initState).2 = none
    ∧ (∀ r, (load defaultOpts badDirEnv initState).2 ≠ some r) :=
  ⟨rfl, rfl, fun _ h => Option.noConfusion h⟩

/-- **C6 (amended).**  Once discovery hands back a file list, failures of
the read+parse stage are delivered exclusively through the completion
callback's error parameter, with no result value and the module state
untouched; and a load whose files all parse (to truthy values) completes
by calling back with `(null, tree)` — the store cell on a real run, a
fresh cell on a dry run.  (`load` itself is a total function: it never
throws synchronously.) -/
theorem c6_error_propagation (opts : LoadOpts) (env : Env) (s : MState)
    (files : List Str) (e : LoadErr) (entries : List (Option ConfigEntry))
    (rs : List ConfigEntry)
    (hd : env.discovery = Except.ok files) :
    (loadFiles env files = Except.error e →
      (load opts env s).2 = some (Except.error e) ∧ (load opts env s).1 = s)
    ∧ (loadFiles env files = Except.ok entries →
        resolveEntries opts.defaultProfile opts.profile entries = some rs →
        (load opts env s).2
          = some (Except.ok (if opts.dryRun then s.heap.length else s.storeRef))) := by
  constructor
  · intro hl
    have hp : pipeline opts env = some (Except.error e) := by
      rw [pipeline_eq opts env _ hd, hl]
    rw [load_of_pipeline_err s hp]
    exact ⟨rfl, rfl⟩
  · intro hl hr
    have hp : pipeline opts env = some (Except.ok rs) := by
      rw [pipeline_eq opts env _ hd, hl]
      simp only [hr]
    rw [load_of_pipeline_ok s hp]
    unfold commit
    cases opts.dryRun <;> simp

/-- **C5 (counterexample).**  The claim fails in three ways, each at a
concrete input.  (1) Conflicting array-valued keys: on
`{default: {k: [1,2,3]}, production: {k: [9]}}` the code's lodash merge
produces `{k: [9,2,3]}` — active elements win position by position and
the longer array's tail survives — while the spec's deep merge (§4.3:
sequences are replaced wholesale) gives `{k: [9]}`.  (2) A non-object
active section: on `{default: {a: 1}, production: 5}` the code keeps
`{a: 1}` (a scalar merge source has no own enumerable keys) while the
spec's wholesale replacement gives `5`.  (3) A file parsing to YAML
`null` lacks both sections, so the claim says its resolved value is the
empty object; instead `value && {...}` makes the entry falsy, the
resolution stage dereferences `config.value` on `null`, and the callback
is never invoked. -/
theorem c5_counterexample :
    (resolveProfile arrConflictValue "default".toList (some "production".toList)
        = JVal.obj [("k".toList, JVal.arr [JVal.num 9, JVal.num 2, JVal.num 3])]
      ∧ specResolveValue arrConflictValue "default".toList (some "production".toList)
        = JVal.obj [("k".toList, JVal.arr [JVal.num 9])]
      ∧ (resolveProfile arrConflictValue "default".toList (some "production".toList)
          = specResolveValue arrConflictValue "default".toList (some "production".toList)
            → False))
    ∧ (resolveProfile scalarSectionValue "default".toList (some "production".toList)
        = JVal.obj [("a".toList, JVal.num 1)]
      ∧ specResolveValue scalarSectionValue "default".toList (some "production".toList)
        = JVal.num 5)
    ∧ (nullFileEnv.content "nul.yaml".toList = FileResult.ok JVal.null
      ∧ truthy JVal.null = false
      ∧ (load defaultOpts nullFileEnv initState).2 = none) := by
  refine ⟨⟨rfl, rfl, ?_⟩, ⟨rfl, rfl⟩, ⟨rfl, rfl, rfl⟩⟩
  intro h
  rw [show resolveProfile arrConflictValue "default".toList (some "production".toList)
        = JVal.obj [("k".toList, JVal.arr [JVal.num 9, JVal.num 2, JVal.num 3])]
        from rfl,
      show specResolveValue arrConflictValue "default".toList (some "production".toList)
        = JVal.obj [("k".toList, JVal.arr [JVal.num 9])] from rfl] at h
  simp at h

/-- **C5 (amended).**  For every *truthy* parsed per-file value whose
default- and active-profile sections are objects or absent and are
merge-compatible — along no conflicting key path does an array in the
default section meet an array or object in the active section — the
entry the resolution stage emits carries exactly the spec's deep merge
(§4.3), into a fresh object, of the default-profile section and the
active-profile section: the active section wins on conflicting leaf
keys, absent sections behave as empty objects, non-object values are
replaced wholesale.  Outside these hypotheses the code diverges
(`c5_counterexample`): conflicting arrays merge index-wise, a non-object
section contributes nothing, and a falsy parsed value is never resolved
at all — the stage throws and the callback is never invoked. -/
theorem c5_profile_merge (c : ConfigEntry) (d : Str) (p : Option Str)
    (rest : List (Option ConfigEntry)) (rcs : List ConfigEntry)
    (hdv : isObjOrAbsent (sectionOf c.value d) = true)
    (hpv : isObjOrAbsent (sectionOf c.value (profileKey p)) = true)
    (hcompat : sectionCompat (sectionOf c.value d)
        (sectionOf c.value (profileKey p)) = true)
    (hrest : resolveEntries d p rest = some rcs) :
    resolveEntries d p (some c :: rest)
      = some ({ c with value := specResolveValue c.value d p } :: rcs)
    ∧ resolveProfile c.value d p = specResolveValue c.value d p := by
  have key : resolveProfile c.value d p = specResolveValue c.value d p := by
    unfold resolveProfile specResolveValue
    cases hdv' : sectionOf c.value d with
    | none =>
        cases hpv' : sectionOf c.value (profileKey p) with
        | none => simp [mergeSource, specMergeJ_nilL]
        | some sv =>
            rw [hpv'] at hpv
            cases sv with
            | obj sfs => simp [mergeSource, mergeJ_nilL, specMergeJ_nilL]
            | null => simp [isObjOrAbsent] at hpv
            | bool b => simp [isObjOrAbsent] at hpv
            | num n => simp [isObjOrAbsent] at hpv
            | str t => simp [isObjOrAbsent] at hpv
            | arr xs => simp [isObjOrAbsent] at hpv
    | some dv =>
        rw [hdv'] at hdv
        cases dv with
        | obj dfs =>
            cases hpv' : sectionOf c.value (profileKey p) with
            | none =>
                simp [mergeSource, mergeJ_nilL, specMergeJ_nilL, specMergeJ_nilR]
            | some sv =>
                rw [hpv'] at hpv
                cases sv with
                | obj sfs =>
                    rw [hdv', hpv'] at hcompat
                    simp only [sectionCompat] at hcompat
                    simp only [mergeSource, Option.getD_some]
                    rw [mergeJ_nilL, specMergeJ_nilL]
                    exact mergeJ_eq_specMergeJ _ _ hcompat
                | null => simp [isObjOrAbsent] at hpv
                | bool b => simp [isObjOrAbsent] at hpv
                | num n => simp [isObjOrAbsent] at hpv
                | str t => simp [isObjOrAbsent] at hpv
                | arr xs => simp [isObjOrAbsent] at hpv
        | null => simp [isObjOrAbsent] at hdv
        | bool b => simp [isObjOrAbsent] at hdv
        | num n => simp [isObjOrAbsent] at hdv
        | str t => simp [isObjOrAbsent] at hdv
        | arr xs => simp [isObjOrAbsent] at hdv
  refine ⟨?_, key⟩
  simp [resolveEntries, hrest, key]

/-- Witness for `c5_profile_merge`, at the spec's own examples:
`{default: {a:1, b:2}, production: {b:3}}` resolves to `{a:1, b:3}` under
active profile `production` and to `{a:1, b:2}` with no active profile
set. -/
theorem c5_profile_merge_witness :
    resolveProfile sampleValue "default".toList (some "production".toList)
      = JVal.obj [("a".toList, JVal.num 1), ("b".toList, JVal.num 3)]
    ∧ resolveProfile sampleValue "default".toList none
      = JVal.obj [("a".toList, JVal.num 1), ("b".toList, JVal.num 2)] :=
  ⟨((c5_profile_merge { path := "p".toList, value := sampleValue }
      "default".toList (some "production".toList) [] [] rfl rfl rfl rfl).2).trans rfl,
   ((c5_profile_merge { path := "p".toList, value := sampleValue }
      "default".toList none [] [] rfl rfl rfl rfl).2).trans rfl⟩

/-- **C7 (code bug).**  `load` documents a `pathNormalizer` option, but
`loadFile` passes it inside a third argument to `path.relative` — which
ignores extra arguments — and calls `toDotPath` with no options, so the
default camel-case transform is applied even when a caller supplies a
normalizer.  Loading `db/mongo.yaml` with an upper-casing normalizer
still produces the entry path `db.mongo` and store key chain
`db` / `mongo`, where the documented behaviour (`toDotPath` invoked with
the supplied normalizer, as the previous revision of the module did)
yields `DB.MONGO`. -/
theorem c7_normalizer_never_applied :
    loadFile sampleEnv "db/mongo.yaml".toList
      = Except.ok (some { path := "db.mongo".toList, value := sampleValue })
    ∧ toDotPath "db/mongo.yaml".toList (some upperNorm) = "DB.MONGO".toList
    ∧ toDotPath "db/mongo.yaml".toList upNormOpts.pathNormalizer = "DB.MONGO".toList
    ∧ heapAt (load upNormOpts sampleEnv initState).1 initState.storeRef
        = some (JVal.obj [("db".toList,
            JVal.obj [("mongo".toList,
              JVal.obj [("a".toList, JVal.num 1), ("b".toList, JVal.num 2)])])])
    ∧ "db.mongo".toList ≠ "DB.MONGO".toList :=
  ⟨rfl, rfl, rfl, rfl, by decide⟩

/-! ## String lemmas for C10 -/

theorem splitSep_ne_nil (sep : Char) (s : Str) : splitSep sep s ≠ [] := by
  cases s with
  | nil => simp [splitSep]
  | cons c rest =>
      cases hs : splitSep sep rest with
      | nil => simp [splitSep, hs]
      | cons chunk chunks =>
          by_cases hc : c = sep <;> simp [splitSep, hs, hc]

theorem splitSep_not_mem (sep : Char) (w : Str) (h : sep ∉ w) :
    splitSep sep w = [w] := by
  induction w with
  | nil => rfl
  | cons c w' ih =>
      have hc : c ≠ sep := fun hc => h (hc ▸ List.mem_cons_self c w')
      have hw' : sep ∉ w' := fun hw => h (List.mem_cons_of_mem c hw)
      simp [splitSep, ih hw', hc]

theorem splitSep_append (sep : Char) (u w : Str) (h : sep ∉ u) :
    splitSep sep (u ++ sep :: w) = u :: splitSep sep w := by
  induction u with
  | nil =>
      cases hs : splitSep sep w with
      | nil => exact absurd hs (splitSep_ne_nil sep w)
      | cons chunk chunks => simp [splitSep, hs]
  | cons a u' ih =>
      have ha : a ≠ sep := fun hc => h (hc ▸ List.mem_cons_self a u')
      have hu' : sep ∉ u' := fun hw => h (List.mem_cons_of_mem a hw)
      simp [splitSep, ih hu', ha]

theorem lastDotSuffix_not_mem (s : Str) (h : '.' ∉ s) : lastDotSuffix s = [] := by
  induction s with
  | nil => rfl
  | cons c s' ih =>
      have hc : c ≠ '.' := fun hc => h (hc ▸ List.mem_cons_self c s')
      have hs' : '.' ∉ s' := fun hs => h (List.mem_cons_of_mem c hs)
      simp [lastDotSuffix, ih hs', hc]

theorem lastDotSuffix_append (v e : Str) (hv : '.' ∉ v) (he : '.' ∉ e) :
    lastDotSuffix (v ++ '.' :: e) = '.' :: e := by
  induction v with
  | nil => simp [lastDotSuffix, lastDotSuffix_not_mem e he]
  | cons c v' ih =>
      have hc : c ≠ '.' := fun hc => hv (hc ▸ List.mem_cons_self c v')
      have hv' : '.' ∉ v' := fun hs => hv (List.mem_cons_of_mem c hs)
      simp [lastDotSuffix, ih hv']

theorem isPrefixOf_self_append (l r : Str) : l.isPrefixOf (l ++ r) = true := by
  induction l with
  | nil => simp [List.isPrefixOf]
  | cons c l' ih => simp [List.isPrefixOf, ih]

theorem replaceFirst_cons_hit (c : Char) (tail pat : Str)
    (h : pat.isPrefixOf (c :: tail) = true) :
    replaceFirst (c :: tail) pat = (c :: tail).drop pat.length := by
  simp only [replaceFirst, h]
  simp

theorem replaceFirst_cons_miss (c : Char) (tail pat : Str)
    (h : pat.isPrefixOf (c :: tail) = false) :
    replaceFirst (c :: tail) pat = c :: replaceFirst tail pat := by
  simp only [replaceFirst, h]
  simp

theorem replaceFirst_deletes_first (e u rest : Str) (hu : '.' ∉ u) :
    replaceFirst (u ++ ('.' :: e) ++ rest) ('.' :: e) = u ++ rest := by
  induction u with
  | nil =>
      show replaceFirst ('.' :: (e ++ rest)) ('.' :: e) = rest
      rw [replaceFirst_cons_hit '.' (e ++ rest) ('.' :: e)
        (isPrefixOf_self_append ('.' :: e) rest)]
      exact List.drop_left ('.' :: e) rest
  | cons c u' ih =>
      have hc : c ≠ '.' := fun hc => hu (hc ▸ List.mem_cons_self c u')
      have hu' : '.' ∉ u' := fun hs => hu (List.mem_cons_of_mem c hs)
      have hdot : ('.' : Char) ≠ c := fun h => hc h.symm
      have hnp : ('.' :: e).isPrefixOf (c :: (u' ++ ('.' :: e) ++ rest)) = false := by
        simp [List.isPrefixOf, hdot]
      show replaceFirst (c :: (u' ++ ('.' :: e) ++ rest)) ('.' :: e) = c :: (u' ++ rest)
      rw [replaceFirst_cons_miss c _ _ hnp, ih hu']

theorem basenameOf_append (u w : Str) (hu : '/' ∉ u) (hw : '/' ∉ w) :
    basenameOf (u ++ '/' :: w) = w := by
  unfold basenameOf
  rw [splitSep_append '/' u w hu, splitSep_not_mem '/' w hw]
  rfl

theorem extname_double (u v e : Str) (hv : v ≠ [])
    (hus : '/' ∉ u) (hes : '/' ∉ e) (hvs : '/' ∉ v)
    (hvd : '.' ∉ v) (hed : '.' ∉ e) :
    extname ((u ++ '.' :: e) ++ '/' :: (v ++ '.' :: e)) = '.' :: e := by
  have h1 : '/' ∉ u ++ '.' :: e := by
    intro h
    rcases List.mem_append.mp h with h | h
    · exact hus h
    · rcases List.mem_cons.mp h with h | h
      · exact absurd h (by decide)
      · exact hes h
  have h2 : '/' ∉ v ++ '.' :: e := by
    intro h
    rcases List.mem_append.mp h with h | h
    · exact hvs h
    · rcases List.mem_cons.mp h with h | h
      · exact absurd h (by decide)
      · exact hes h
  have hb : basenameOf ((u ++ '.' :: e) ++ '/' :: (v ++ '.' :: e)) = v ++ '.' :: e :=
    basenameOf_append _ _ h1 h2
  unfold extname
  rw [hb]
  cases v with
  | nil => exact absurd rfl hv
  | cons c v' =>
      simp only [List.cons_append]
      rw [show lastDotSuffix (c :: (v' ++ '.' :: e)) = '.' :: e from
        lastDotSuffix_append (c :: v') e hvd hed]
      have hlen : ¬ ('.' :: e).length = (c :: (v' ++ '.' :: e)).length := by
        simp [List.length_cons, List.length_append]
        omega
      show (if ('.' :: e).length = (c :: (v' ++ '.' :: e)).length
            then ([] : Str) else '.' :: e) = '.' :: e
      rw [if_neg hlen]

/-- **C10.**  `toDotPath` removes the *first* occurrence of the extension
string anywhere in the relative path, not the trailing one: for a path
`<u>.<e>/<v>.<e>` — a directory whose name ends with the extension
containing a file with that extension — the directory's occurrence is
deleted while the file's own extension survives into the final
dotted-path segment, which normalizes `<v>.<e>` (not `<v>`). -/
theorem c10_replaces_first_extension_occurrence (u v e : Str)
    (hu : u ≠ []) (hv : v ≠ [])
    (hud : '.' ∉ u) (hus : '/' ∉ u)
    (hvd : '.' ∉ v) (hvs : '/' ∉ v)
    (hed : '.' ∉ e) (hes : '/' ∉ e) :
    toDotPath ((u ++ '.' :: e) ++ '/' :: (v ++ '.' :: e)) none
      = camelCase u ++ '.' :: camelCase (v ++ '.' :: e) := by
  unfold toDotPath
  rw [extname_double u v e hv hus hes hvs hvd hed]
  have hrepl : replaceFirst ((u ++ '.' :: e) ++ '/' :: (v ++ '.' :: e)) ('.' :: e)
      = u ++ '/' :: (v ++ '.' :: e) := by
    have h := replaceFirst_deletes_first e u ('/' :: (v ++ '.' :: e)) hud
    simpa [List.append_assoc] using h
  rw [hrepl]
  have h2 : '/' ∉ v ++ '.' :: e := by
    intro h
    rcases List.mem_append.mp h with h | h
    · exact hvs h
    · rcases List.mem_cons.mp h with h | h
      · exact absurd h (by decide)
      · exact hes h
  rw [splitSep_append '/' u _ hus, splitSep_not_mem '/' (v ++ '.' :: e) h2]
  have hu0 : u.isEmpty = false := by
    cases u with
    | nil => exact absurd rfl hu
    | cons a b => rfl
  have hw0 : (v ++ '.' :: e).isEmpty = false := by cases v <;> rfl
  simp [List.filter_cons, hu0, hw0, Option.getD, List.intercalate, List.intersperse]

/-- Witness for `c10_replaces_first_extension_occurrence`: a directory
named `db.yaml` holding `x.yaml` — the path `db.yaml/x.yaml` becomes
`db.xYaml`: the directory's `.yaml` was deleted, the file's survived into
the last segment. -/
theorem c10_replaces_first_extension_occurrence_witness :
    toDotPath "db.yaml/x.yaml".toList none = "db.xYaml".toList :=
  (c10_replaces_first_extension_occurrence "db".toList "x".toList "yaml".toList
    (by decide) (by decide) (by decide) (by decide) (by decide) (by decide)
    (by decide) (by decide)).trans rfl

/-! ## Witnesses for the conditional claim theorems -/

/-- Witness for `c2_store_identity`: a real load of `sampleEnv` over the
fresh module state returns cell `0` — the store cell — and rewrites it. -/
theorem c2_store_identity_witness :
    (load defaultOpts sampleEnv initState).1.storeRef = initState.storeRef
    ∧ (load defaultOpts sampleEnv initState).2 = some (Except.ok 0)
    ∧ heapAt (load defaultOpts sampleEnv initState).1 0
        = some (applyBatch (clearVal (JVal.obj [])) sampleEntries) := by
  have h := c2_store_identity defaultOpts sampleEnv initState
  have h3 := h.2.2 sampleEntries (JVal.obj []) rfl rfl rfl (by decide)
  exact ⟨h.1, h3.1, h3.2⟩

/-- Witness for `c3_dry_run_isolation`: a dry run of `sampleEnv` under
profile `production` leaves the store cell intact and returns fresh cell
`1` with the batch applied to an empty tree. -/
theorem c3_dry_run_isolation_witness :
    heapAt (load prodDryOpts sampleEnv initState).1 initState.storeRef
      = heapAt initState initState.storeRef
    ∧ (load prodDryOpts sampleEnv initState).2 = some (Except.ok 1)
    ∧ heapAt (load prodDryOpts sampleEnv initState).1 1
        = some (applyBatch (JVal.obj []) prodEntries) := by
  have h := c3_dry_run_isolation prodDryOpts sampleEnv initState prodEntries rfl
    (by decide)
  exact ⟨h.2.1, (h.2.2.2 rfl).1, (h.2.2.2 rfl).2.2⟩

/-- Witness for `c4_dry_run_refinement`: the tree of a dry production
load of `sampleEnv` equals the store contents after the real production
load. -/
theorem c4_dry_run_refinement_witness :
    heapAt (load prodDryOpts sampleEnv initState).1 1
      = heapAt (load prodOpts sampleEnv initState).1 0 :=
  (c4_dry_run_refinement prodDryOpts prodOpts sampleEnv initState prodEntries []
    rfl rfl rfl rfl rfl (by decide)).2.2

/-- Witness for `c1_parse_failure_aborts`: `a.yaml` parses fine,
`b.yaml` fails to parse; the callback receives the `ParserError` naming
`b.yaml` and the module state is untouched. -/
theorem c1_parse_failure_aborts_witness :
    (load defaultOpts parseFailEnv initState).2
      = some (Except.error
          (LoadErr.parserError "unexpected token".toList "b.yaml".toList))
    ∧ (load defaultOpts parseFailEnv initState).1 = initState :=
  c1_parse_failure_aborts defaultOpts parseFailEnv initState
    ["a.yaml".toList] [] "b.yaml".toList "unexpected token".toList rfl rfl
    (fun g hg => ⟨sampleValue, by rcases List.mem_singleton.mp hg with rfl; rfl⟩)
    rfl

/-- Witness for `c6_error_propagation`: the parse failure of
`parseFailEnv` arrives through the callback's error parameter with the
state untouched, and the all-good `sampleEnv` load calls back with the
store cell. -/
theorem c6_error_propagation_witness :
    ((load defaultOpts parseFailEnv loadedState).2
        = some (Except.error
            (LoadErr.parserError "unexpected token".toList "b.yaml".toList))
      ∧ (load defaultOpts parseFailEnv loadedState).1 = loadedState)
    ∧ (load defaultOpts sampleEnv loadedState).2 = some (Except.ok 0) := by
  constructor
  · exact (c6_error_propagation defaultOpts parseFailEnv loadedState
      ["a.yaml".toList, "b.yaml".toList]
      (LoadErr.parserError "unexpected token".toList "b.yaml".toList)
      [] [] rfl).1 rfl
  · exact (c6_error_propagation defaultOpts sampleEnv loadedState
      ["db/mongo.yaml".toList] (LoadErr.ioError [])
      [some { path := "db.mongo".toList, value := sampleValue }]
      sampleEntries rfl).2 rfl rfl

/-- Witness for `c8_empty_directory`: loading an empty directory over a
store holding `{old: 7}` empties it (real run) or returns a fresh empty
tree leaving `{old: 7}` in place (dry run). -/
theorem c8_empty_directory_witness :
    (load defaultOpts emptyDirEnv loadedState).2 = some (Except.ok 0)
    ∧ heapAt (load defaultOpts emptyDirEnv loadedState).1 0 = some (JVal.obj [])
    ∧ (load prodDryOpts emptyDirEnv loadedState).2 = some (Except.ok 1)
    ∧ heapAt (load prodDryOpts emptyDirEnv loadedState).1 1 = some (JVal.obj [])
    ∧ heapAt (load prodDryOpts emptyDirEnv loadedState).1 0 = heapAt loadedState 0 :=
  c8_empty_directory defaultOpts prodDryOpts emptyDirEnv loadedState
    [("old".toList, JVal.num 7)] rfl rfl rfl rfl (by decide)

/-- Witness for `c9_idempotent`: loading `sampleEnv` twice in a row under
profile `production` leaves the store cell with the same contents as one
load. -/
theorem c9_idempotent_witness :
    heapAt (load prodOpts sampleEnv (load prodOpts sampleEnv loadedState).1).1 0
      = heapAt (load prodOpts sampleEnv loadedState).1 0 :=
  c9_idempotent prodOpts sampleEnv loadedState prodEntries
    [("old".toList, JVal.num 7)] rfl rfl rfl (by decide)

end HotConfig
